import Mathlib

/-!
Verification of the pydelfi JLA supernovae example notebook
(`examples/jla_sne_marginalized.ipynb`).

The notebook is glue code around external libraries (pydelfi, the JLA
simulator package, tensorflow).  The glue itself — prior bounds, the
`simulator` and `compressor` closures, the finite-difference step sizes,
the Fisher-block slicing and the training hyperparameters — is embedded
here directly from the source.  External library routines that the source
only calls (`priors.Uniform`, `score.Gaussian`, `jla.JLA_Model`,
`delfi.Delfi`) are modelled from the specification, with doc comments
marking each such definition.

Vectors are `List ℚ`, matrices are row-major `List (List ℚ)`.  Randomness
consumed from numpy's global state is made explicit: a draw takes the
list of unit-interval variates it consumes as an extra argument.
-/

namespace PydelfiJLA

/-- Dot product of two rational vectors (truncating to the shorter). -/
def dot (a b : List ℚ) : ℚ := (List.zipWith (fun x y => x * y) a b).sum

/-- Componentwise subtraction (truncating to the shorter). -/
def vsub (a b : List ℚ) : List ℚ := List.zipWith (fun x y => x - y) a b

/-- Column `j` of a row-major matrix. -/
def colOf (m : List (List ℚ)) (j : ℕ) : List ℚ := m.map (fun r => r.getD j 0)

/-- Matrix product. -/
def matMul (a b : List (List ℚ)) : List (List ℚ) :=
  a.map (fun r => (List.range (b.headD []).length).map (fun j => dot r (colOf b j)))

/-- Matrix–vector product. -/
def matVec (m : List (List ℚ)) (v : List ℚ) : List ℚ := m.map (fun r => dot r v)

/-- Matrix transpose. -/
def transpose (m : List (List ℚ)) : List (List ℚ) :=
  (List.range (m.headD []).length).map (fun j => colOf m j)

/-- Identity matrix of size `n`. -/
def idMat (n : ℕ) : List (List ℚ) :=
  (List.range n).map (fun i => (List.range n).map (fun j => if i = j then (1 : ℚ) else 0))

/-- Swap rows `i` and `j`. -/
def swapRows (m : List (List ℚ)) (i j : ℕ) : List (List ℚ) :=
  let ri := m.getD i []
  let rj := m.getD j []
  (m.set i rj).set j ri

/-- Scale a row by a constant. -/
def scaleRow (c : ℚ) (r : List ℚ) : List ℚ := r.map (fun x => c * x)

/-- Subtract `c` times row `p` from row `r`. -/
def rowSub (r p : List ℚ) (c : ℚ) : List ℚ := List.zipWith (fun x y => x - c * y) r p

/-- One Gauss–Jordan elimination step: pivot on column `k`. -/
def gaussStep (m : List (List ℚ)) (k : ℕ) : List (List ℚ) :=
  match (List.range m.length).filter
      (fun r => decide (k ≤ r ∧ (m.getD r []).getD k 0 ≠ 0)) with
  | [] => m
  | p :: _ =>
    let m1 := swapRows m k p
    let piv := (m1.getD k []).getD k 0
    let m2 := m1.set k (scaleRow piv⁻¹ (m1.getD k []))
    (List.range m2.length).foldl
      (fun acc r =>
        if r = k then acc
        else acc.set r (rowSub (acc.getD r []) (m2.getD k []) ((acc.getD r []).getD k 0)))
      m2

/-- Full Gauss–Jordan elimination. -/
def gaussJordan (m : List (List ℚ)) : List (List ℚ) :=
  (List.range m.length).foldl gaussStep m

/-- Matrix inverse by Gauss–Jordan elimination on the augmented matrix. -/
def matInv (a : List (List ℚ)) : List (List ℚ) :=
  let n := a.length
  let aug := (List.range n).map
    (fun i => (a.getD i []) ++ (List.range n).map (fun j => if i = j then (1 : ℚ) else 0))
  (gaussJordan aug).map (fun r => r.drop n)

/-- Entries of a vector indexed by an index list. -/
def subVec (v : List ℚ) (idx : List ℕ) : List ℚ := idx.map (fun i => v.getD i 0)

/-- Submatrix given row and column index lists. -/
def subMat (m : List (List ℚ)) (rows cols : List ℕ) : List (List ℚ) :=
  rows.map (fun i => cols.map (fun j => (m.getD i []).getD j 0))

/-! ## Prior bounds configured by the notebook (cell 3). -/

def lower : List ℚ := [0, -3/2]

def upper : List ℚ := [3/5, 0]

def eta_lower : List ℚ := [-20, 0, 0, -1/2]

def eta_upper : List ℚ := [-18, 1, 6, 1/2]

/-- A uniform prior over a box, as configured by `priors.Uniform(lower, upper)`. -/
structure Uniform where
  lower : List ℚ
  upper : List ℚ

/-- Modelled from the spec: `priors.Uniform.draw` is external library code;
the spec requires it to draw a sample uniformly within the bounds, using
numpy's global random state.  That global state is made explicit: `u` is
the list of unit-interval variates the draw consumes, and the sample is
`lower + u * (upper - lower)` componentwise. -/
def Uniform.draw (p : Uniform) (u : List ℚ) : List ℚ :=
  List.zipWith (fun lu x => lu.1 + x * (lu.2 - lu.1)) (p.lower.zip p.upper) u

def prior : Uniform := ⟨lower, upper⟩

def eta_prior : Uniform := ⟨eta_lower, eta_upper⟩

/-! ## The JLA physical model (external; modelled from the spec). -/

/-- Number of data points of the modelled dataset.  The real JLA dataset has
740 supernovae; the model uses a small representative size. -/
def nData : ℕ := 6

/-- Modelled from the spec: `JLA_Model.apparent_magnitude`, the model mean as
a function of the joint (interesting + nuisance) parameter vector; external
physics, represented by a concrete injective linear map so that the pipeline
is executable. -/
def Amat : List (List ℚ) :=
  [[1, 0, 1, 0, 0, 0],
   [0, 2, 0, 0, 0, 0],
   [0, 0, 3, 0, 0, 0],
   [0, 0, 0, 4, 0, 0],
   [0, 0, 0, 0, 5, 0],
   [0, 0, 0, 0, 0, 6]]

/-- Modelled from the spec: the mean apparent-magnitude vector at a joint
parameter point (external `JLA_Model.apparent_magnitude`). -/
def apparent_magnitude (params : List ℚ) : List ℚ := matVec Amat params

/-- Modelled from the spec: `JLA_Model.simulation` is the external physical
model; it is a deterministic function of the joint parameter vector and the
seed, returning a single synthetic dataset (one row of `nData` values). -/
def JLA_simulation (params : List ℚ) (seed : ℕ) : List (List ℚ) :=
  [(apparent_magnitude params).map (fun x => x + (seed : ℚ))]

/-- Modelled from the spec: the observed JLA dataset (`JLASimulator.data`),
external data, represented by a fixed vector of length `nData`. -/
def JLA_data : List ℚ := [2, 1, 0, 3, 1, 2]

/-- Modelled from the spec: the inverse data covariance (`JLASimulator.Cinv`),
external data, represented by the identity. -/
def Cinv : List (List ℚ) := idMat nData

/-! ## The simulator closure (cell 5 of the notebook). -/

/-- The `simulator` closure of the notebook: reads the nuisance prior from
`simulator_args[0]`, draws a nuisance sample from it (consuming the global
random state `rand`, which is explicit here), and simulates at the
concatenated joint vector.  The `batch` argument is accepted but never used,
exactly as in the source. -/
def simulator (theta : List ℚ) (seed : ℕ) (simulator_args : List Uniform)
    (batch : ℕ) (rand : List ℚ) : List (List ℚ) :=
  let eta_prior := simulator_args.getD 0 ⟨[], []⟩
  let eta := eta_prior.draw rand
  JLA_simulation (theta ++ eta) seed

def simulator_args : List Uniform := [eta_prior]

/-! ## Score compression (cell 7 of the notebook). -/

/-- Fiducial interesting parameters, from the notebook source. -/
def theta_fiducial : List ℚ := [1/5, -3/4]

/-- Fiducial nuisance parameters, from the notebook source. -/
def eta_fiducial : List ℚ := [-476/25, 1/8, 66/25, -1/20]

/-- The joint fiducial vector `np.concatenate([theta_fiducial, eta_fiducial])`. -/
def jointFid : List ℚ := theta_fiducial ++ eta_fiducial

/-- Finite-difference step sizes as a function of a fiducial vector:
`np.array(abs(fid))*0.01` from the source. -/
def stepSizes (fid : List ℚ) : List ℚ := fid.map (fun x => |x| * (1/100))

/-- The notebook's `h = np.array(abs(np.concatenate([theta_fiducial, eta_fiducial])))*0.01`. -/
def h : List ℚ := stepSizes jointFid

/-- The notebook's `mu = JLASimulator.apparent_magnitude(...)` at the joint fiducial. -/
def mu : List ℚ := apparent_magnitude jointFid

/-- Modelled from the spec: `JLA_Model.dmudt` — the derivative of the mean at
the fiducial point, estimated by central finite differences with the supplied
step sizes (row `i` is the derivative with respect to parameter `i`). -/
def JLA_dmudt (fid hstep : List ℚ) : List (List ℚ) :=
  (List.range fid.length).map (fun i =>
    let hi := hstep.getD i 0
    let plus := fid.mapIdx (fun j x => if j = i then x + hi else x)
    let minus := fid.mapIdx (fun j x => if j = i then x - hi else x)
    scaleRow (1 / (2 * hi)) (vsub (apparent_magnitude plus) (apparent_magnitude minus)))

/-- The notebook's `dmudt = JLASimulator.dmudt(np.concatenate([...]), h)`. -/
def dmudt : List (List ℚ) := JLA_dmudt jointFid h

/-- State of the `score.Gaussian` compressor object: constructor inputs plus
the cached Fisher matrix and its inverse (empty until `compute_fisher`). -/
structure CompressorState where
  ndata : ℕ
  theta_fiducial : List ℚ
  mu : List ℚ
  Cinv : List (List ℚ)
  dmudt : List (List ℚ)
  F : List (List ℚ)
  Finv : List (List ℚ)

/-- Modelled from the spec: the `score.Gaussian` constructor — the fiducial
vector, mean, inverse covariance and mean derivative are supplied once at
construction; the Fisher matrix is not yet computed. -/
def score_Gaussian (nd : ℕ) (fid mu0 : List ℚ) (Cinv0 dmudt0 : List (List ℚ)) :
    CompressorState :=
  ⟨nd, fid, mu0, Cinv0, dmudt0, [], []⟩

/-- Modelled from the spec: `compute_fisher` computes the Fisher information
matrix of the Gaussian model, `F = dmudt · Cinv · dmudtᵀ`, once, and caches
it together with its inverse. -/
def compute_fisher (s : CompressorState) : CompressorState :=
  let F := matMul (matMul s.dmudt s.Cinv) (transpose s.dmudt)
  { s with F := F, Finv := matInv F }

/-- Modelled from the spec: the score `t(d)`, the gradient of the Gaussian
log-likelihood at the fiducial point, `t = dmudt · Cinv · (d - mu)`. -/
def CompressorState.score (s : CompressorState) (d : List ℚ) : List ℚ :=
  matVec (matMul s.dmudt s.Cinv) (vsub d s.mu)

/-- Modelled from the spec: `projected_scoreMLE` — nuisance-hardened score
compression.  The joint score is projected onto the interesting indices (the
complement of the nuisance index set) by the formula
`tθ - Fθη · Fηη⁻¹ · tη`. -/
def CompressorState.projected_scoreMLE (s : CompressorState) (d : List ℚ)
    (nuisances : List ℕ) : List ℚ :=
  let npar := s.theta_fiducial.length
  let interesting := (List.range npar).filter (fun i => decide (i ∉ nuisances))
  let t := s.score d
  let tEta := subVec t nuisances
  let corr := matVec
    (matMul (subMat s.F interesting nuisances) (matInv (subMat s.F nuisances nuisances)))
    tEta
  vsub (subVec t interesting) corr

/-- The notebook's compressor object after `Compressor.compute_fisher()`. -/
def Compressor : CompressorState :=
  compute_fisher (score_Gaussian JLA_data.length jointFid mu Cinv dmudt)

/-- The notebook's `Finv = Compressor.Finv[0:2,0:2]`. -/
def Finv : List (List ℚ) := (Compressor.Finv.take 2).map (fun r => r.take 2)

/-- The notebook's `nuisance_indices = np.arange(2,6)`. -/
def nuisance_indices : List ℕ := [2, 3, 4, 5]

/-- The `compressor` closure exactly as in the source: it binds
`compressor_args[0]` to the (misspelled, unused) local `nuisances_indices`
but calls `projected_scoreMLE` with the captured global `nuisance_indices`. -/
def compressor (d : List ℚ) (compressor_args : List (List ℕ)) : List ℚ :=
  let nuisances_indices := compressor_args.getD 0 []
  Compressor.projected_scoreMLE d nuisance_indices

def compressor_args : List (List ℕ) := [nuisance_indices]

/-- The notebook's `compressed_data = compressor(JLASimulator.data, compressor_args)`. -/
def compressed_data : List ℚ := compressor JLA_data compressor_args

/-! ## The inference engine (external `delfi.Delfi`; modelled from the spec). -/

/-- Modelled from the spec: the observable state of the external inference
engine.  `data` and `Finv` are the construction inputs the claims concern;
`nTrain` is the size of the accumulated training set, `weightsEpoch` counts
retrainings of the ensemble, `rounds` the completed populations and
`sinceImprove` the rounds since the stopping criterion last improved. -/
structure DelfiState where
  data : List ℚ
  prior : Uniform
  Finv : List (List ℚ)
  theta_fiducial : List ℚ
  param_limits : List ℚ × List ℚ
  nTrain : ℕ
  weightsEpoch : ℕ
  rounds : ℕ
  sinceImprove : ℕ

/-- Modelled from the spec: the `delfi.Delfi` constructor — records the
compressed observed data, the interesting-parameter prior, the inverse Fisher
matrix (interesting block), the fiducial parameters and the parameter limits;
no training has happened yet. -/
def delfi_Delfi (compressed : List ℚ) (pr : Uniform) (finv : List (List ℚ))
    (fid : List ℚ) (limits : List ℚ × List ℚ) : DelfiState :=
  ⟨compressed, pr, finv, fid, limits, 0, 0, 0, 0⟩

/-- The notebook's `DelfiEnsemble = delfi.Delfi(compressed_data, prior, NDEs,
Finv=Finv, theta_fiducial=theta_fiducial, param_limits=[lower, upper], ...)`. -/
def DelfiEnsemble : DelfiState :=
  delfi_Delfi compressed_data prior Finv theta_fiducial (lower, upper)

/-- Modelled from the spec: `fisher_pretraining` — a one-shot initialization
that retrains the ensemble from the analytic Fisher target; its only side
effect is on the ensemble weights. -/
def fisher_pretraining (s : DelfiState) : DelfiState :=
  { s with weightsEpoch := s.weightsEpoch + 1 }

/-- Modelled from the spec: one round of sequential training — draw `nb` new
samples, simulate, compress, append them to the training set, retrain the
ensemble, and evaluate the stopping criterion.  Whether the criterion
improved this round is abstracted by the oracle `improved`. -/
def trainRound (nb : ℕ) (improved : ℕ → Bool) (s : DelfiState) : DelfiState :=
  { s with
    nTrain := s.nTrain + nb
    weightsEpoch := s.weightsEpoch + 1
    sinceImprove := if improved s.rounds then 0 else s.sinceImprove + 1
    rounds := s.rounds + 1 }

/-- Modelled from the spec: the population loop of `sequential_training`,
running for at most the given number of populations and stopping early once
`patience` rounds have passed without improvement. -/
def seqLoop (nb : ℕ) (improved : ℕ → Bool) (patience : ℕ) :
    ℕ → DelfiState → DelfiState
  | 0, s => s
  | Nat.succ n, s =>
    if patience ≤ s.sinceImprove then s
    else seqLoop nb improved patience n (trainRound nb improved s)

/-- Modelled from the spec: `sequential_training` — seed the training set
with `ni` initial prior samples, then iterate the population loop for up to
`npop` rounds with the given `patience`. -/
def sequential_training (ni nb npop patience : ℕ) (improved : ℕ → Bool)
    (s : DelfiState) : DelfiState :=
  seqLoop nb improved patience npop
    { s with nTrain := s.nTrain + ni, rounds := 0, sinceImprove := 0 }

/-- The notebook's training hyperparameter `n_initial = 100`. -/
def n_initial : ℕ := 100

/-- The notebook's training hyperparameter `n_batch = 100`. -/
def n_batch : ℕ := 100

/-- The notebook's training hyperparameter `n_populations = 11`. -/
def n_populations : ℕ := 11

/-! ## The notebook run as a whole (for the immutability claim). -/

/-- Joint state of the compressor object and the engine while the notebook
cells execute in order. -/
structure NotebookState where
  comp : CompressorState
  engine : DelfiState

/-- Placeholder engine before `delfi.Delfi` is constructed. -/
def emptyEngine : DelfiState := ⟨[], ⟨[], []⟩, [], [], ([], []), 0, 0, 0, 0⟩

/-- State after cell 7: the compressor is built and `compute_fisher` has run. -/
def nb0 : NotebookState := ⟨Compressor, emptyEngine⟩

/-- Cells 9 and 13: compress the observed data and construct the engine. -/
def nb_build_engine (s : NotebookState) : NotebookState :=
  { s with engine :=
      (delfi_Delfi (s.comp.projected_scoreMLE JLA_data nuisance_indices) prior
        ((s.comp.Finv.take 2).map (fun r => r.take 2)) theta_fiducial (lower, upper)) }

/-- Cell 15: `DelfiEnsemble.fisher_pretraining()`. -/
def nb_fisher_pretraining (s : NotebookState) : NotebookState :=
  { s with engine := fisher_pretraining s.engine }

/-- Cell 17: `DelfiEnsemble.sequential_training(simulator, compressor, 100,
100, 11, patience=10, ...)`. -/
def nb_sequential_training (improved : ℕ → Bool) (s : NotebookState) : NotebookState :=
  { s with engine :=
      sequential_training n_initial n_batch n_populations 10 improved s.engine }

/-- The whole notebook run after cell 17. -/
def notebookRun (improved : ℕ → Bool) : NotebookState :=
  nb_sequential_training improved (nb_fisher_pretraining (nb_build_engine nb0))

/-! ## Claim theorems -/

/-- C1: the claim states that `compressor(d, args)` always projects with the
nuisance index set supplied in `args[0]` at call time.  Evaluating the
compressor at a call whose `args[0] = [0, 1]` differs from the captured
global `nuisance_indices = [2, 3, 4, 5]` refutes this: the source binds
`args[0]` to the misspelled dead local `nuisances_indices` and projects with
the global `nuisance_indices` instead, so the result at `args[0] = [0, 1]`
is the global-partition projection and differs from the `args[0]`-partition
projection. -/
theorem C1_compressor_ignores_call_time_args :
    compressor JLA_data [[0, 1]] =
      Compressor.projected_scoreMLE JLA_data nuisance_indices ∧
    compressor JLA_data [[0, 1]] ≠ Compressor.projected_scoreMLE JLA_data [0, 1] :=
  ⟨rfl, by with_unfolding_all decide⟩

/-- C2 counterexample: called with batch size 2, the simulator returns a
dataset batch with exactly one row, so the row count does not equal the
batch argument. -/
theorem C2_counterexample_batch_two :
    (simulator theta_fiducial 0 simulator_args 2 [0, 0, 0, 0]).length ≠ 2 := by
  with_unfolding_all decide

/-- C2 (amended): the simulator ignores its batch argument — the returned
batch is identical for any two batch sizes, and always consists of exactly
one simulated dataset row. -/
theorem C2_simulator_ignores_batch (theta : List ℚ) (seed : ℕ)
    (args : List Uniform) (b b2 : ℕ) (rand : List ℚ) :
    simulator theta seed args b rand = simulator theta seed args b2 rand ∧
    (simulator theta seed args b rand).length = 1 :=
  ⟨rfl, rfl⟩

/-- C3 counterexample: two simulator calls with identical interesting
parameters, seed, args and batch, but different global random states,
return different outputs — the nuisance draw consumes hidden randomness
that the seed does not govern. -/
theorem C3_counterexample_global_randomness :
    simulator theta_fiducial 7 simulator_args 1 [0, 0, 0, 0] ≠
      simulator theta_fiducial 7 simulator_args 1 [1, 1, 1, 1] := by
  with_unfolding_all decide

/-- C3 (amended): the simulator is deterministic given the seed AND the
drawn nuisance sample — two calls with the same interesting parameters,
seed and args whose nuisance-prior draws coincide return identical output,
whatever the batch arguments and underlying random states. -/
theorem C3_deterministic_given_draw (theta : List ℚ) (seed : ℕ)
    (args : List Uniform) (b b2 : ℕ) (r1 r2 : List ℚ)
    (hdraw : (args.getD 0 ⟨[], []⟩).draw r1 = (args.getD 0 ⟨[], []⟩).draw r2) :
    simulator theta seed args b r1 = simulator theta seed args b2 r2 := by
  show JLA_simulation (theta ++ (args.getD 0 ⟨[], []⟩).draw r1) seed =
    JLA_simulation (theta ++ (args.getD 0 ⟨[], []⟩).draw r2) seed
  rw [hdraw]

/-- C3 witness: two concrete random states whose draws coincide give
identical simulator output. -/
theorem C3_deterministic_witness :
    simulator theta_fiducial 7 simulator_args 1 [0, 0, 0, 0] =
      simulator theta_fiducial 7 simulator_args 2 [0, 0, 0, 0, 1] :=
  C3_deterministic_given_draw theta_fiducial 7 simulator_args 1 2
    [0, 0, 0, 0] [0, 0, 0, 0, 1] (by with_unfolding_all decide)

/-- C4: for every call, the simulator draws the nuisance sample from the
prior supplied as `args[0]` and invokes the underlying physical model on the
concatenated joint vector — interesting parameters first, then the drawn
nuisance parameters — with the given seed. -/
theorem C4_simulator_draws_nuisance_from_args (theta : List ℚ) (seed : ℕ)
    (args : List Uniform) (b : ℕ) (rand : List ℚ) :
    simulator theta seed args b rand =
      JLA_simulation (theta ++ (args.getD 0 ⟨[], []⟩).draw rand) seed :=
  rfl

/-- C6: the inverse Fisher matrix handed to the engine at construction is
exactly the leading 2×2 block of the inverse of the full 6×6 Fisher matrix
computed over the joint fiducial vector: the engine's `Finv` equals the
`[0:2,0:2]` block of `matInv Compressor.F`, the cached `Compressor.Finv`
really is an inverse of `Compressor.F`, the compressor's fiducial is the
joint (interesting ++ nuisance) vector, the full matrix is 6×6 and the
block is 2×2. -/
theorem C6_Finv_is_leading_block_of_full_inverse :
    DelfiEnsemble.Finv = ((matInv Compressor.F).take 2).map (fun r => r.take 2) ∧
    matMul Compressor.F Compressor.Finv = idMat 6 ∧
    Compressor.theta_fiducial = theta_fiducial ++ eta_fiducial ∧
    Compressor.F.length = 6 ∧ DelfiEnsemble.Finv.length = 2 :=
  ⟨rfl, by with_unfolding_all decide, rfl, by with_unfolding_all decide,
    by with_unfolding_all decide⟩

/-- C8: the Fisher matrix and its inverse are computed exactly once, at
compressor construction, from the fiducial-point quantities, and every
subsequent notebook step — compressing the observed data and building the
engine, Fisher pre-training, sequential training — leaves the compressor
state (hence the cached `F` and `Finv`) unchanged; after the whole run the
compressor state still equals the one produced at construction. -/
theorem C8_fisher_computed_once_and_immutable (improved : ℕ → Bool)
    (s : NotebookState) :
    Compressor.F = matMul (matMul dmudt Cinv) (transpose dmudt) ∧
    Compressor.Finv = matInv Compressor.F ∧
    (nb_build_engine s).comp = s.comp ∧
    (nb_fisher_pretraining s).comp = s.comp ∧
    (nb_sequential_training improved s).comp = s.comp ∧
    (notebookRun improved).comp = Compressor :=
  ⟨rfl, rfl, rfl, rfl, rfl, rfl⟩

/-- The projected score has one entry per interesting index (the complement,
below the joint dimension, of the nuisance index set), whatever the data. -/
theorem length_projected_scoreMLE (s : CompressorState) (d : List ℚ) (ns : List ℕ) :
    (s.projected_scoreMLE d ns).length =
      ((List.range s.theta_fiducial.length).filter (fun i => decide (i ∉ ns))).length := by
  simp [CompressorState.projected_scoreMLE, vsub, subVec, matVec, matMul, subMat,
    List.length_zipWith]

/-- C5: for every input data array (and indeed every args list) the
compressor returns a summary vector of length 2, the number of interesting
parameters; in particular compressing the observed dataset yields a
2-element vector. -/
theorem C5_compressor_output_length_two (d : List ℚ) (args : List (List ℕ)) :
    (compressor d args).length = 2 ∧ (compressor JLA_data compressor_args).length = 2 := by
  have gen : ∀ (d0 : List ℚ) (args0 : List (List ℕ)), (compressor d0 args0).length = 2 := by
    intro d0 args0
    rw [show compressor d0 args0 = Compressor.projected_scoreMLE d0 nuisance_indices from rfl,
      length_projected_scoreMLE]
    with_unfolding_all decide
  exact ⟨gen d args, gen JLA_data compressor_args⟩

/-- The population loop runs at most `fuel` more rounds, and it stops only
by running out of populations or by exhausting patience. -/
theorem seqLoop_rounds_bound (nb : ℕ) (improved : ℕ → Bool) (patience fuel : ℕ)
    (s : DelfiState) :
    (seqLoop nb improved patience fuel s).rounds ≤ s.rounds + fuel ∧
    ((seqLoop nb improved patience fuel s).rounds = s.rounds + fuel ∨
      patience ≤ (seqLoop nb improved patience fuel s).sinceImprove) := by
  induction fuel generalizing s with
  | zero => simp [seqLoop]
  | succ n ih =>
    simp only [seqLoop]
    by_cases hp : patience ≤ s.sinceImprove
    · rw [if_pos hp]
      exact ⟨Nat.le_add_right _ _, Or.inr hp⟩
    · rw [if_neg hp]
      have h2 := ih (trainRound nb improved s)
      have hr : (trainRound nb improved s).rounds = s.rounds + 1 := rfl
      rw [hr] at h2
      refine ⟨by omega, ?_⟩
      rcases h2.2 with he | hpat
      · exact Or.inl (by omega)
      · exact Or.inr hpat

/-- C7: `sequential_training` terminates after at most `n_populations`
rounds for every run — whatever the improvement history, including one where
patience never triggers — and its only terminal conditions are completing
all `n_populations` rounds or exhausting `patience`. -/
theorem C7_sequential_training_round_bound (ni nb npop patience : ℕ)
    (improved : ℕ → Bool) (s : DelfiState) :
    (sequential_training ni nb npop patience improved s).rounds ≤ npop ∧
    ((sequential_training ni nb npop patience improved s).rounds = npop ∨
      patience ≤ (sequential_training ni nb npop patience improved s).sinceImprove) := by
  have hb := seqLoop_rounds_bound nb improved patience npop
    { s with nTrain := s.nTrain + ni, rounds := 0, sinceImprove := 0 }
  simpa [sequential_training] using hb

/-- C9: for componentwise valid bounds, a Uniform prior draws samples lying
within `[lower, upper]` componentwise, for any unit-interval variates. -/
theorem C9_uniform_draw_within_bounds (p : Uniform) (u : List ℚ) (i : ℕ)
    (hb : ∀ j, j < p.lower.length → j < p.upper.length →
      p.lower.getD j 0 < p.upper.getD j 0)
    (hu : ∀ j, j < u.length → 0 ≤ u.getD j 0 ∧ u.getD j 0 ≤ 1)
    (hi : i < (p.draw u).length) :
    p.lower.getD i 0 ≤ (p.draw u).getD i 0 ∧ (p.draw u).getD i 0 ≤ p.upper.getD i 0 := by
  have hlen : (p.draw u).length = min (min p.lower.length p.upper.length) u.length := by
    simp [Uniform.draw, List.length_zipWith, List.length_zip]
  have h1 : i < p.lower.length := by rw [hlen] at hi; omega
  have h2 : i < p.upper.length := by rw [hlen] at hi; omega
  have h3 : i < u.length := by rw [hlen] at hi; omega
  have hz : i < (p.lower.zip p.upper).length := by rw [List.length_zip]; omega
  have he : (p.draw u).getD i 0 =
      p.lower[i] + u[i] * (p.upper[i] - p.lower[i]) := by
    rw [List.getD_eq_getElem _ _ hi]
    show (List.zipWith (fun lu x => lu.1 + x * (lu.2 - lu.1)) (p.lower.zip p.upper) u)[i] = _
    rw [List.getElem_zipWith, List.getElem_zip]
  rw [he, List.getD_eq_getElem _ _ h1, List.getD_eq_getElem _ _ h2]
  have hlu : p.lower[i] < p.upper[i] := by
    have := hb i h1 h2
    rwa [List.getD_eq_getElem _ _ h1, List.getD_eq_getElem _ _ h2] at this
  have hui : 0 ≤ u[i] ∧ u[i] ≤ 1 := by
    have := hu i h3
    rwa [List.getD_eq_getElem _ _ h3] at this
  constructor
  · nlinarith [hui.1, hui.2, hlu]
  · nlinarith [hui.1, hui.2, hlu]

/-- C9 witness: both configured priors — the interesting-parameter prior and
the nuisance prior — draw within their bounds at concrete unit variates. -/
theorem C9_uniform_draw_witness :
    (prior.lower.getD 0 0 ≤ (prior.draw [1/2, 1/2]).getD 0 0 ∧
      (prior.draw [1/2, 1/2]).getD 0 0 ≤ prior.upper.getD 0 0) ∧
    (eta_prior.lower.getD 2 0 ≤ (eta_prior.draw [0, 1/4, 1/2, 3/4]).getD 2 0 ∧
      (eta_prior.draw [0, 1/4, 1/2, 3/4]).getD 2 0 ≤ eta_prior.upper.getD 2 0) :=
  ⟨C9_uniform_draw_within_bounds prior [1/2, 1/2] 0
      (by with_unfolding_all decide) (by with_unfolding_all decide)
      (by with_unfolding_all decide),
    C9_uniform_draw_within_bounds eta_prior [0, 1/4, 1/2, 3/4] 2
      (by with_unfolding_all decide) (by with_unfolding_all decide)
      (by with_unfolding_all decide)⟩

/-- C10: every finite-difference step size equals 0.01 times the absolute
value of the corresponding joint fiducial component; a step size is strictly
positive exactly when that component is nonzero (so a zero component would
degenerate the derivative estimate); and the notebook's `h`, built from the
configured fiducials, has all entries strictly positive. -/
theorem C10_step_sizes_positive_iff_nonzero (fid : List ℚ) (i : ℕ) :
    (stepSizes fid).getD i 0 = |fid.getD i 0| * (1/100) ∧
    (0 < (stepSizes fid).getD i 0 ↔ fid.getD i 0 ≠ 0) ∧
    h = stepSizes (theta_fiducial ++ eta_fiducial) ∧
    h.all (fun x => decide (0 < x)) = true := by
  have key : ∀ (l : List ℚ) (j : ℕ), (stepSizes l).getD j 0 = |l.getD j 0| * (1/100) := by
    intro l
    induction l with
    | nil => intro j; simp [stepSizes]
    | cons a t ih =>
      intro j
      cases j with
      | zero => simp [stepSizes]
      | succ n => simpa [stepSizes, List.getD_cons_succ] using ih n
  refine ⟨key fid i, ?_, rfl, by with_unfolding_all decide⟩
  rw [key fid i]
  constructor
  · intro hpos hzero
    rw [hzero] at hpos
    norm_num at hpos
  · intro hne
    exact mul_pos (abs_pos.mpr hne) (by norm_num)

end PydelfiJLA
